import Mathlib

/-!
Verification development for the pkgbin caching reverse proxy (Go).

The definitions below are a shallow embedding of the program's source:

* string helpers model the Go standard-library functions used by the code
  (strings.HasPrefix, strings.HasSuffix, strings.TrimPrefix, strings.Split,
  strings.Join, strings.ReplaceAll, path/filepath.Base);
* the cache-key derivation functions mirror
  internal/handlers (generateCacheFileName, generatePyPICacheFileName, and
  the basename key used by GemDownloadHandler);
* the request classifiers mirror the catch-all dispatch closures of the
  three ecosystem main functions;
* the artifact pipeline (HandleTarballDownload) is modelled as a pure
  function over an oracle describing the outcomes of its effectful steps;
* the refresh and purge operator endpoints are modelled likewise;
* the single-flight registry is modelled as a transition system over
  program counters, one per concurrent request for the same cache key.
-/

/-- Boolean prefix test on character lists; models Go strings.HasPrefix
applied to the underlying bytes (here: characters). -/
def listIsPrefixOf : List Char → List Char → Bool
  | [], _ => true
  | _ :: _, [] => false
  | a :: as, b :: bs => a == b && listIsPrefixOf as bs

/-- Models strings.HasPrefix s pre. -/
def goStartsWith (s pre : String) : Bool :=
  listIsPrefixOf pre.data s.data

/-- Models strings.HasSuffix s suf (a suffix is a prefix of the reversal). -/
def goHasSuffix (s suf : String) : Bool :=
  listIsPrefixOf suf.data.reverse s.data.reverse

/-- Models strings.TrimPrefix on character lists: remove pre once if present. -/
def goTrimPrefixL (l pre : List Char) : List Char :=
  if listIsPrefixOf pre l then l.drop pre.length else l

/-- Models strings.TrimPrefix on strings. -/
def goTrimPrefixS (s pre : String) : String :=
  String.mk (goTrimPrefixL s.data pre.data)

/-- Models path/filepath.Base on Unix: empty path gives ".", a path of only
slashes gives "/", otherwise the segment after the last slash, with
trailing slashes stripped first. -/
def goBase (l : List Char) : List Char :=
  if l = [] then ['.']
  else
    let t := (l.reverse.dropWhile (fun c => c = '/')).reverse
    if t = [] then ['/']
    else (t.reverse.takeWhile (fun c => c ≠ '/')).reverse

/-- Models strings.ReplaceAll scope "/" "__" (single-character pattern). -/
def replaceSlash : List Char → List Char
  | [] => []
  | c :: rest => (if c = '/' then ['_', '_'] else [c]) ++ replaceSlash rest

/-- Models strings.Split s "/" (the single-character separator case):
splitting an empty list yields one empty part, as in Go. -/
def splitSlash : List Char → List (List Char)
  | [] => [[]]
  | c :: rest =>
    if c = '/' then [] :: splitSlash rest
    else
      match splitSlash rest with
      | [] => [[c]]
      | p :: ps => (c :: p) :: ps

/-- Models strings.Join parts "__". -/
def joinUU : List (List Char) → List Char
  | [] => []
  | [p] => p
  | p :: q :: ps => p ++ '_' :: '_' :: joinUU (q :: ps)

/-- Fuelled worker for the general strings.Split: scan left to right and cut
at each leftmost non-overlapping occurrence of the separator.  The fuel is
an upper bound on the number of characters still to scan, so the
recursion is structural and kernel-reducible. -/
def splitAux (sep : List Char) : Nat → List Char → List Char → List (List Char)
  | 0, l, acc => [acc ++ l]
  | _ + 1, [], acc => [acc]
  | fuel + 1, c :: rest, acc =>
    if listIsPrefixOf sep (c :: rest) then
      acc :: splitAux sep fuel (List.drop sep.length (c :: rest)) []
    else splitAux sep fuel rest (acc ++ [c])

/-- Models strings.Split s sep for a non-empty separator. -/
def goSplit (sep l : List Char) : List (List Char) :=
  splitAux sep l.length l []

/-- Models strings.Join parts sep for an arbitrary separator. -/
def joinSep (sep : List Char) : List (List Char) → List Char
  | [] => []
  | [p] => p
  | p :: q :: ps => p ++ sep ++ joinSep sep (q :: ps)

/-- The slash-dash-slash separator used by generateCacheFileName for scoped
NPM paths. -/
def npmScopeSep : List Char := ['/', '-', '/']

/-- Embedding of generateCacheFileName (internal/handlers/npm_download.go,
lines 24-42): trim one leading slash; for paths starting with "@" that
split into exactly two parts around npmScopeSep, return "@" plus the first part
(with its own leading "@" trimmed and every slash replaced by "__"),
then "__", then the basename of the second part; otherwise the basename
of the trimmed path. -/
def generateCacheFileName (p : String) : String :=
  let urlPath := goTrimPrefixS p "/"
  if goStartsWith urlPath "@" then
    let parts := goSplit npmScopeSep urlPath.data
    if parts.length = 2 then
      let scope := goTrimPrefixL (parts.getD 0 []) ['@']
      let scope := replaceSlash scope
      let tarballName := goBase (parts.getD 1 [])
      String.mk ('@' :: scope ++ '_' :: '_' :: tarballName)
    else String.mk (goBase urlPath.data)
  else String.mk (goBase urlPath.data)

/-- Embedding of generatePyPICacheFileName (pypi download handler, lines
26-45): trim one leading slash, split on "/", and if there is more than
one part join the directory parts with "__" and append "__" plus the file
name; otherwise fall back to the basename. -/
def generatePyPICacheFileName (p : String) : String :=
  let urlPath := goTrimPrefixS p "/"
  let parts := splitSlash urlPath.data
  if parts.length > 1 then
    String.mk (joinUU parts.dropLast ++ '_' :: '_' :: parts.getLastD [])
  else String.mk (goBase urlPath.data)

/-- Specification-side description of the PyPI cache key (spec, section 3):
the entire path without the leading slash, with every slash separator
replaced by a double underscore.  Stated from the spec's words so the
implementation's split-and-join construction can be compared against
it. -/
def specPyPICacheKey (p : String) : String :=
  String.mk (replaceSlash (goTrimPrefixL p.data ['/']))

/-- Embedding of the gem cache key (GemDownloadHandler, line 26):
filepath.Base of the request path. -/
def gemCacheFileName (p : String) : String :=
  String.mk (goBase p.data)

/-- Where the catch-all dispatch closure of an ecosystem frontend sends a
request: to the caching artifact pipeline or to the transparent reverse
proxy. -/
inductive Route
  | artifact
  | proxied
deriving DecidableEq

/-- Embedding of the NPM frontend dispatch closure (cmd/npm_cache/main.go):
GET requests whose path ends in ".tgz" go to the artifact pipeline. -/
def npmDispatch (method path : String) : Route :=
  if method = "GET" ∧ goHasSuffix path ".tgz" = true then .artifact else .proxied

/-- Embedding of isPackageFile (cmd/python_cache/main.go): the lowered path
must end in one of the package-file extensions.  strings.ToLower is
modelled as a character-wise Char.toLower, which agrees with Go on the
ASCII paths at issue. -/
def isPackageFile (path : String) : Bool :=
  let lowerPath := String.mk (path.data.map Char.toLower)
  goHasSuffix lowerPath ".whl" || goHasSuffix lowerPath ".tar.gz" ||
    goHasSuffix lowerPath ".zip" || goHasSuffix lowerPath ".egg" ||
    goHasSuffix lowerPath ".tar.bz2"

/-- Embedding of the PyPI frontend dispatch closure (cmd/python_cache/main.go):
GET requests for package files go to the artifact pipeline. -/
def pypiDispatch (method path : String) : Route :=
  if method = "GET" ∧ isPackageFile path = true then .artifact else .proxied

/-- The RubyGems artifact predicate (main, lines 51-61): path begins with
"/gems/" and ends with ".gem". -/
def rubyArtifactPred (path : String) : Bool :=
  goStartsWith path "/gems/" && goHasSuffix path ".gem"

/-- Embedding of the RubyGems frontend dispatch closure (main, lines 51-61).
The closure branches on the path only; the request method is not
consulted. -/
def rubyDispatch (_method path : String) : Route :=
  if rubyArtifactPred path = true then .artifact else .proxied

/-- A stats recording performed by the pipeline: UpdatePackageAccess with
true (hit) or false (miss). -/
inductive RecEvent
  | hit
  | miss
deriving DecidableEq

/-- The part of the filesystem the pipeline touches for one cache key:
the file at the final path (cacheDir/fileName) and the file at the temp
path (final plus ".tmp").  Each is either absent or present with a byte
size. -/
structure FS where
  final : Option Nat
  temp : Option Nat
deriving DecidableEq

/-- Oracle for the effectful steps of HandleTarballDownload: whether each
operating-system or network call succeeds, what io.Copy reports, and what
size the temp file really ends up with. -/
structure Oracle where
  /-- os.Open on the fast-path cache check succeeds (line 115). -/
  fastOpenOk : Bool
  /-- os.Open on the post-lock re-check succeeds (line 143). -/
  lockOpenOk : Bool
  /-- http.Get returns err == nil and StatusOK (lines 155-156). -/
  upstreamOk : Bool
  /-- os.Create of the temp file succeeds (line 164). -/
  createOk : Bool
  /-- io.Copy returns a non-nil error (line 173). -/
  copyErr : Bool
  /-- bytesWritten as returned by io.Copy (line 173). -/
  copyReported : Nat
  /-- The size the temp file actually holds after the copy completes. -/
  copyActual : Nat
  /-- os.Stat of the temp file at the verification step succeeds (line 184). -/
  tempStatOk : Bool
  /-- os.Rename of temp to final succeeds (line 192). -/
  renameOk : Bool
deriving DecidableEq

/-- Outcome of one pipeline execution: HTTP status, the stats recordings
made, the final filesystem state, and flags marking which steps ran. -/
structure HResult where
  status : Nat
  events : List RecEvent
  fs : FS
  /-- The upstream GET was issued. -/
  fetchAttempted : Bool
  /-- The upstream GET was issued and failed (error or non-200). -/
  fetchFailed : Bool
  /-- os.Create of the temp file succeeded, so a temp file existed. -/
  tempCreated : Bool
  /-- The size-verification step (stat of temp) was reached. -/
  verifyReached : Bool
  /-- The rename of temp to final succeeded. -/
  installed : Bool
deriving DecidableEq

/-- Embedding of the miss branch of HandleTarballDownload (lines 152-205):
record a miss, fetch upstream, stream to the temp file, verify the
written size against the copy count, and atomically rename into place.
Every failure return unlinks the temp file when it exists. -/
def missPath (o : Oracle) (fs : FS) : HResult :=
  if o.upstreamOk = false then
    { status := 502, events := [.miss], fs := fs, fetchAttempted := true,
      fetchFailed := true, tempCreated := false, verifyReached := false,
      installed := false }
  else if o.createOk = false then
    { status := 500, events := [.miss], fs := fs, fetchAttempted := true,
      fetchFailed := false, tempCreated := false, verifyReached := false,
      installed := false }
  else if o.copyErr = true then
    { status := 500, events := [.miss], fs := { fs with temp := none },
      fetchAttempted := true, fetchFailed := false, tempCreated := true,
      verifyReached := false, installed := false }
  else if o.tempStatOk = false ∨ o.copyActual ≠ o.copyReported then
    { status := 500, events := [.miss], fs := { fs with temp := none },
      fetchAttempted := true, fetchFailed := false, tempCreated := true,
      verifyReached := true, installed := false }
  else if o.renameOk = true then
    { status := 200, events := [.miss],
      fs := { final := some o.copyActual, temp := none },
      fetchAttempted := true, fetchFailed := false, tempCreated := true,
      verifyReached := true, installed := true }
  else
    { status := 500, events := [.miss], fs := { fs with temp := none },
      fetchAttempted := true, fetchFailed := false, tempCreated := true,
      verifyReached := true, installed := false }

/-- Embedding of the post-lock re-check of HandleTarballDownload (lines
142-150): if the final file is present, non-empty and readable, record a
hit and serve it; otherwise continue into the miss branch (an unreadable
file is not removed here). -/
def afterLock (o : Oracle) (fs : FS) : HResult :=
  match fs.final with
  | some n =>
    if n > 0 ∧ o.lockOpenOk = true then
      { status := 200, events := [.hit], fs := fs, fetchAttempted := false,
        fetchFailed := false, tempCreated := false, verifyReached := false,
        installed := false }
    else missPath o fs
  | none => missPath o fs

/-- Embedding of HandleTarballDownload (npm_download.go lines 101-205),
starting at the fast-path cache check (lines 113-126): a present,
non-empty, readable final file is served as a hit; a present non-empty
but unreadable file is unlinked before continuing; otherwise the
single-flight lock is taken and the re-check plus miss branch run. -/
def handleTarballDownload (o : Oracle) (fs0 : FS) : HResult :=
  match fs0.final with
  | some n =>
    if n > 0 then
      if o.fastOpenOk = true then
        { status := 200, events := [.hit], fs := fs0, fetchAttempted := false,
          fetchFailed := false, tempCreated := false, verifyReached := false,
          installed := false }
      else afterLock o { fs0 with final := none }
    else afterLock o fs0
  | none => afterLock o fs0

/-- Number of stats recordings made during one pipeline execution. -/
def numRecords (r : HResult) : Nat :=
  r.events.length

/-- The refresh endpoint's package-level state (handlers, refresh file,
lines 16-20): lastRefreshTime is in nanoseconds since some origin, with 0
standing for Go's zero time (lastRefreshTime.IsZero()). -/
structure RefreshState where
  lastRefreshTime : Nat
  inProgress : Bool
deriving DecidableEq

/-- The message carried by a RefreshResponse.  Constructors stand for the
literal strings built by refreshHandler; pleaseWait carries the remaining
duration spliced into "Please wait ... before refreshing again." (the
code rounds it to minutes for display). -/
inductive RefreshMsg
  | methodNotAllowed
  | alreadyInProgress
  | pleaseWait (remaining : Nat)
  | started
deriving DecidableEq

/-- Whether a refresh message carries a remaining-wait-time duration. -/
def RefreshMsg.hasRemaining : RefreshMsg → Bool
  | .pleaseWait _ => true
  | _ => false

/-- The JSON body written by refreshHandler. -/
structure RefreshResponse where
  success : Bool
  message : RefreshMsg
deriving DecidableEq

/-- 30 * time.Minute in nanoseconds. -/
def thirtyMinutes : Nat := 30 * 60 * 1000000000

/-- Embedding of refreshHandler (lines 39-86).  now is the current clock in
nanoseconds; time.Since(lastRefreshTime) is now minus lastRefreshTime
(truncated subtraction agrees with the code's signed comparison for the
blocking decision whenever the clock has not gone backwards).  Returns
the updated state and the response. -/
def refreshHandler (method : String) (now : Nat) (s : RefreshState) :
    RefreshState × RefreshResponse :=
  if method ≠ "POST" then
    (s, { success := false, message := .methodNotAllowed })
  else if s.inProgress = true then
    (s, { success := false, message := .alreadyInProgress })
  else
    let timeSinceLastRefresh := now - s.lastRefreshTime
    if timeSinceLastRefresh < thirtyMinutes ∧ s.lastRefreshTime ≠ 0 then
      (s, { success := false,
            message := .pleaseWait (thirtyMinutes - timeSinceLastRefresh) })
    else
      ({ lastRefreshTime := now, inProgress := true },
       { success := true, message := .started })

/-- Oracle for purgeHandler's effectful calls: filepath.Glob per pattern
(none models a pattern error, some the matched files), os.Remove per
file, and the database delete. -/
structure PurgeEnv where
  glob : String → Option (List String)
  removeOk : String → Bool
  dbDeleteOk : Bool

/-- The JSON body written by purgeHandler; empty lists stand for omitted
omitempty fields. -/
structure PurgeResponse where
  success : Bool
  message : String
  deleted : List String
  failed : List String
deriving DecidableEq

/-- Outcome of purgeHandler: an http.Error status or a JSON response. -/
inductive PurgeOutcome
  | httpError (code : Nat)
  | ok (resp : PurgeResponse)
deriving DecidableEq

/-- The JSON response of a purge outcome (http.Error outcomes carry none of
the JSON fields; an all-empty failure response stands in). -/
def PurgeOutcome.getResp : PurgeOutcome → PurgeResponse
  | .ok r => r
  | .httpError _ => { success := false, message := "", deleted := [], failed := [] }

/-- Embedding of the per-package loop of purgeHandler (lines 238-287): each
name is globbed against the cache directory; a glob error appends the
name to failed, otherwise every matched file is removed (removal errors
are only logged).  Returns the failed names in request order and the
files successfully unlinked.  The npm and non-npm branches of the Go
loop are textually identical, so a single loop models both. -/
def purgeLoop (env : PurgeEnv) : List String → List String × List String
  | [] => ([], [])
  | pkgName :: rest =>
    match env.glob pkgName with
    | none =>
      let r := purgeLoop env rest
      (pkgName :: r.1, r.2)
    | some found =>
      let removedNow := found.filter env.removeOk
      let r := purgeLoop env rest
      (r.1, removedNow ++ r.2)

/-- Embedding of purgeHandler (lines 214-316): non-POST methods get 405, an
undecodable body 400, an empty package list a no-op success; otherwise
the loop runs, then the database delete; on database failure the
response is a bare failure, and on success deleted is set to the entire
request list and failed is attached when non-empty. -/
def purgeHandler (method : String) (body : Option (List String))
    (env : PurgeEnv) : PurgeOutcome :=
  if method ≠ "POST" then .httpError 405
  else
    match body with
    | none => .httpError 400
    | some packages =>
      if packages = [] then
        .ok { success := true, message := "No packages to purge",
              deleted := [], failed := [] }
      else
        let failed := (purgeLoop env packages).1
        if env.dbDeleteOk = false then
          .ok { success := false,
                message := "Failed to delete packages from database",
                deleted := [], failed := [] }
        else
          .ok { success := true,
                message :=
                  if failed.length > 0 then
                    "Some packages failed to purge completely"
                  else "Packages purged successfully",
                deleted := packages, failed := failed }

/-- Program counter of one request inside the artifact pipeline for a fixed
cache key, abstracting HandleTarballDownload's control flow around the
single-flight mutex: the fast-path check (start), waiting on the per-key
mutex (acquiring), and the critical section of re-check (recheck),
upstream GET in flight (fetching) and temp-write plus rename
(installing); the done states record how the request finished. -/
inductive DPC
  | start
  | acquiring
  | recheck
  | fetching
  | installing
  | doneHit
  | doneMiss
  | doneFail
deriving DecidableEq

/-- Whether a program counter is inside the mutex-guarded critical section
"re-check cache, fetch, install" (lines 138-197: from lock.Lock() to the
deferred unlock). -/
def inCrit : DPC → Bool
  | .recheck => true
  | .fetching => true
  | .installing => true
  | _ => false

/-- Shared state of n concurrent requests for one cache key: each request's
program counter, the holder of the per-key single-flight mutex, and
whether a healthy file is installed at the final path. -/
structure SFState (n : Nat) where
  pc : Fin n → DPC
  lock : Option (Fin n)
  cached : Bool

/-- Interleaving semantics of n concurrent HandleTarballDownload executions
for the same cache key.  Each transition is one request's next step:
the fast-path check serves a hit or proceeds to the mutex; the mutex is
acquired only when free; the re-check under the mutex serves a hit
(releasing the mutex) or starts the upstream GET; the GET either fails
(release, 502) or completes and the install step renames the temp file,
publishes the cache entry, and releases the mutex. -/
inductive SFStep {n : Nat} : SFState n → SFState n → Prop
  | fastHit (i : Fin n) (s : SFState n) :
      s.pc i = .start → s.cached = true →
      SFStep s { s with pc := Function.update s.pc i .doneHit }
  | fastMiss (i : Fin n) (s : SFState n) :
      s.pc i = .start → s.cached = false →
      SFStep s { s with pc := Function.update s.pc i .acquiring }
  | acquire (i : Fin n) (s : SFState n) :
      s.pc i = .acquiring → s.lock = none →
      SFStep s { pc := Function.update s.pc i .recheck, lock := some i,
                 cached := s.cached }
  | recheckHit (i : Fin n) (s : SFState n) :
      s.pc i = .recheck → s.cached = true →
      SFStep s { pc := Function.update s.pc i .doneHit, lock := none,
                 cached := s.cached }
  | recheckMiss (i : Fin n) (s : SFState n) :
      s.pc i = .recheck → s.cached = false →
      SFStep s { s with pc := Function.update s.pc i .fetching }
  | fetchOk (i : Fin n) (s : SFState n) :
      s.pc i = .fetching →
      SFStep s { s with pc := Function.update s.pc i .installing }
  | fetchFail (i : Fin n) (s : SFState n) :
      s.pc i = .fetching →
      SFStep s { pc := Function.update s.pc i .doneFail, lock := none,
                 cached := s.cached }
  | install (i : Fin n) (s : SFState n) :
      s.pc i = .installing →
      SFStep s { pc := Function.update s.pc i .doneMiss, lock := none,
                 cached := true }

/-- Initial state: every request before its fast-path check, the mutex
free, nothing cached. -/
def initState (n : Nat) : SFState n :=
  { pc := fun _ => .start, lock := none, cached := false }

/-- A state the n concurrent requests can reach from the initial state. -/
def SFReachable (n : Nat) (s : SFState n) : Prop :=
  Relation.ReflTransGen SFStep (initState n) s

/-- The mutex invariant: any request inside the critical section is the
mutex holder. -/
def SFInv {n : Nat} (s : SFState n) : Prop :=
  ∀ i, inCrit (s.pc i) = true → s.lock = some i

/-! ### Lemmas about the artifact pipeline -/

/-- Every execution of the miss branch records exactly one miss. -/
theorem missPath_events (o : Oracle) (fs : FS) :
    (missPath o fs).events = [.miss] := by
  unfold missPath
  split_ifs <;> rfl

/-- Every execution of the pipeline records exactly one hit or one miss. -/
theorem handle_events (o : Oracle) (fs : FS) :
    (handleTarballDownload o fs).events = [.hit] ∨
      (handleTarballDownload o fs).events = [.miss] := by
  obtain ⟨fin, tmp⟩ := fs
  cases fin <;>
    simp only [handleTarballDownload, afterLock, missPath] <;>
    split_ifs <;> simp

/-- A failed upstream fetch still comes after the miss recording. -/
theorem handle_fetchFailed_events (o : Oracle) (fs : FS) :
    (handleTarballDownload o fs).fetchFailed = true →
      (handleTarballDownload o fs).events = [.miss] := by
  obtain ⟨fin, tmp⟩ := fs
  cases fin <;>
    simp only [handleTarballDownload, afterLock, missPath] <;>
    split_ifs <;> simp

/-- C2 (counterexample): the RubyGems frontend routes a POST request whose
path begins with "/gems/" and ends in ".gem" to the artifact pipeline,
although its method is not GET; the claim says such a request is
forwarded to the transparent proxy. -/
theorem rubyDispatch_post_counterexample :
    rubyDispatch "POST" "/gems/rails-7.1.0.gem" = Route.artifact ∧
      ("POST" : String) ≠ "GET" := by
  constructor
  · decide
  · decide

/-- C2 (amended): in the RubyGems frontend a request reaching the catch-all
closure is routed to the artifact pipeline if and only if its path begins
with "/gems/" and ends with ".gem"; the request method is not consulted
at all. -/
theorem rubyDispatch_path_only (m p : String) :
    rubyDispatch m p = Route.artifact ↔ rubyArtifactPred p = true := by
  by_cases h : rubyArtifactPred p = true
  · simp [rubyDispatch, h]
  · simp [rubyDispatch, h]

/-- C3 (counterexample): on an empty cache with a failing upstream, the
pipeline issues the fetch, the fetch fails before any install, and one
stats recording (the miss, made before the fetch) has happened — the
claim says none is invoked in this situation. -/
theorem record_once_counterexample :
    (handleTarballDownload
        { fastOpenOk := true, lockOpenOk := true, upstreamOk := false,
          createOk := true, copyErr := false, copyReported := 0,
          copyActual := 0, tempStatOk := true, renameOk := true }
        { final := none, temp := none }).fetchFailed = true ∧
      numRecords (handleTarballDownload
        { fastOpenOk := true, lockOpenOk := true, upstreamOk := false,
          createOk := true, copyErr := false, copyReported := 0,
          copyActual := 0, tempStatOk := true, renameOk := true }
        { final := none, temp := none }) = 1 := by
  decide

/-- C3 (amended): every pipeline execution invokes exactly one of
record_hit and record_miss (so in particular at most one); when the
upstream fetch fails the single recording is the miss, which the code
makes before issuing the fetch. -/
theorem record_exactly_once (o : Oracle) (fs : FS) :
    numRecords (handleTarballDownload o fs) = 1 ∧
      ((handleTarballDownload o fs).fetchFailed = true →
        (handleTarballDownload o fs).events = [.miss]) := by
  refine ⟨?_, handle_fetchFailed_events o fs⟩
  rcases handle_events o fs with h | h <;> rw [numRecords, h] <;> rfl

/-- C3 (witness): a concrete upstream-failure run recording exactly the
miss. -/
theorem record_exactly_once_witness :
    (handleTarballDownload
        { fastOpenOk := true, lockOpenOk := true, upstreamOk := false,
          createOk := true, copyErr := false, copyReported := 3,
          copyActual := 3, tempStatOk := true, renameOk := true }
        { final := none, temp := some 7 }).events = [.miss] :=
  (record_exactly_once
      { fastOpenOk := true, lockOpenOk := true, upstreamOk := false,
        createOk := true, copyErr := false, copyReported := 3,
        copyActual := 3, tempStatOk := true, renameOk := true }
      { final := none, temp := some 7 }).2 (by decide)

/-- C5 (confirmed): the pipeline installs the downloaded file only when the
size reported by stat on the temp file equals the copy count returned by
io.Copy, so the installed final file's size equals the bytes copied; and
whenever the verification step sees a stat failure or a size mismatch,
the handler answers 500, unlinks the temp file, and does not install. -/
theorem install_integrity (o : Oracle) (fs : FS) :
    ((handleTarballDownload o fs).installed = true →
      o.tempStatOk = true ∧ o.copyActual = o.copyReported ∧
        (handleTarballDownload o fs).fs.final = some o.copyReported) ∧
    ((handleTarballDownload o fs).verifyReached = true ∧
        (o.tempStatOk = false ∨ o.copyActual ≠ o.copyReported) →
      (handleTarballDownload o fs).status = 500 ∧
        (handleTarballDownload o fs).fs.temp = none ∧
        (handleTarballDownload o fs).installed = false) := by
  obtain ⟨fin, tmp⟩ := fs
  cases fin <;>
    simp only [handleTarballDownload, afterLock, missPath] <;>
    split_ifs <;> simp_all

/-- C5 (witness): a complete download of 5 reported and 5 actual bytes
installs a 5-byte file, and a run whose temp file stats at 4 bytes
against 5 reported is rejected with 500 and no temp file. -/
theorem install_integrity_witness :
    (handleTarballDownload
        { fastOpenOk := true, lockOpenOk := true, upstreamOk := true,
          createOk := true, copyErr := false, copyReported := 5,
          copyActual := 5, tempStatOk := true, renameOk := true }
        { final := none, temp := none }).fs.final = some 5 ∧
      ((handleTarballDownload
          { fastOpenOk := true, lockOpenOk := true, upstreamOk := true,
            createOk := true, copyErr := false, copyReported := 5,
            copyActual := 4, tempStatOk := true, renameOk := true }
          { final := none, temp := none }).status = 500 ∧
        (handleTarballDownload
          { fastOpenOk := true, lockOpenOk := true, upstreamOk := true,
            createOk := true, copyErr := false, copyReported := 5,
            copyActual := 4, tempStatOk := true, renameOk := true }
          { final := none, temp := none }).fs.temp = none ∧
        (handleTarballDownload
          { fastOpenOk := true, lockOpenOk := true, upstreamOk := true,
            createOk := true, copyErr := false, copyReported := 5,
            copyActual := 4, tempStatOk := true, renameOk := true }
          { final := none, temp := none }).installed = false) :=
  ⟨((install_integrity
      { fastOpenOk := true, lockOpenOk := true, upstreamOk := true,
        createOk := true, copyErr := false, copyReported := 5,
        copyActual := 5, tempStatOk := true, renameOk := true }
      { final := none, temp := none }).1 (by decide)).2.2,
   (install_integrity
      { fastOpenOk := true, lockOpenOk := true, upstreamOk := true,
        createOk := true, copyErr := false, copyReported := 5,
        copyActual := 4, tempStatOk := true, renameOk := true }
      { final := none, temp := none }).2 (by decide)⟩

/-- C6 (confirmed): whenever the temp file was created during a pipeline
execution — whether the copy errored, the size verification failed, the
rename failed, or the install succeeded — no file remains at the temp
path when the handler returns. -/
theorem no_temp_survives (o : Oracle) (fs : FS) :
    (handleTarballDownload o fs).tempCreated = true →
      (handleTarballDownload o fs).fs.temp = none := by
  obtain ⟨fin, tmp⟩ := fs
  cases fin <;>
    simp only [handleTarballDownload, afterLock, missPath] <;>
    split_ifs <;> simp_all

/-- C6 (witness): a successful download leaves no temp file behind. -/
theorem no_temp_survives_witness :
    (handleTarballDownload
        { fastOpenOk := true, lockOpenOk := true, upstreamOk := true,
          createOk := true, copyErr := false, copyReported := 9,
          copyActual := 9, tempStatOk := true, renameOk := true }
        { final := none, temp := none }).fs.temp = none :=
  no_temp_survives
    { fastOpenOk := true, lockOpenOk := true, upstreamOk := true,
      createOk := true, copyErr := false, copyReported := 9,
      copyActual := 9, tempStatOk := true, renameOk := true }
    { final := none, temp := none } (by decide)

/-- C8 (counterexample): a POST refresh request arriving while a refresh is
in progress is blocked with success=false and the state unchanged, but
the code's message for this branch ("A refresh operation is already in
progress. Please wait.") carries no remaining wait time, contrary to the
claim's description of all blocked responses. -/
theorem refresh_blocked_counterexample :
    (refreshHandler "POST" 0 { lastRefreshTime := 0, inProgress := true }).2.success
        = false ∧
      (refreshHandler "POST" 0 { lastRefreshTime := 0, inProgress := true }).1
        = { lastRefreshTime := 0, inProgress := true } ∧
      RefreshMsg.hasRemaining
        (refreshHandler "POST" 0
          { lastRefreshTime := 0, inProgress := true }).2.message = false := by
  decide

/-- C8 (amended): a POST refresh starts a refresh exactly when no refresh is
in progress and either none has ever run (zero last-refresh time) or at
least 30 minutes have elapsed since the previous one began; starting
records the new start time and sets in-progress; any blocked request
leaves the state unchanged with success=false, and the remaining-wait
message is produced exactly in the rate-limit branch, while the
in-progress branch answers with a fixed message without a duration. -/
theorem refreshHandler_spec (now : Nat) (s : RefreshState) :
    ((refreshHandler "POST" now s).2.success = true ↔
        s.inProgress = false ∧
          (s.lastRefreshTime = 0 ∨ thirtyMinutes ≤ now - s.lastRefreshTime)) ∧
      ((refreshHandler "POST" now s).2.success = true →
        (refreshHandler "POST" now s).1
          = { lastRefreshTime := now, inProgress := true }) ∧
      ((refreshHandler "POST" now s).2.success = false →
        (refreshHandler "POST" now s).1 = s) ∧
      (s.inProgress = true →
        (refreshHandler "POST" now s).2.message = .alreadyInProgress) ∧
      (s.inProgress = false → s.lastRefreshTime ≠ 0 →
        now - s.lastRefreshTime < thirtyMinutes →
        (refreshHandler "POST" now s).2.message
          = .pleaseWait (thirtyMinutes - (now - s.lastRefreshTime))) := by
  simp only [refreshHandler]
  split_ifs with h1 h2 h3
  · exact absurd rfl h1
  · refine ⟨by simp [h2], by simp, fun _ => rfl, fun _ => rfl, ?_⟩
    intro hip
    rw [h2] at hip
    exact absurd hip (by decide)
  · refine ⟨?_, by simp, fun _ => rfl, ?_, fun _ _ _ => rfl⟩
    · simp only [false_iff, not_and_or]
      right
      push_neg
      omega
    · intro hip
      simp [hip] at h2
  · refine ⟨?_, fun _ => rfl, by simp, ?_, ?_⟩
    · simp only [true_iff]
      constructor
      · simp at h2
        exact h2
      · omega
    · intro hip
      simp [hip] at h2
    · intro _ hz hlt
      exact absurd ⟨hlt, hz⟩ h3

/-- C8 (witness): a first-ever refresh starts and records its start time,
and a refresh 5 nanoseconds after a previous one is blocked with the
remaining wait spliced into the message. -/
theorem refreshHandler_spec_witness :
    (refreshHandler "POST" 42 { lastRefreshTime := 0, inProgress := false }).1
        = { lastRefreshTime := 42, inProgress := true } ∧
      (refreshHandler "POST" 10 { lastRefreshTime := 5, inProgress := false }).2.message
        = .pleaseWait (thirtyMinutes - 5) :=
  ⟨(refreshHandler_spec 42 { lastRefreshTime := 0, inProgress := false }).2.1
      (by decide),
   (refreshHandler_spec 10 { lastRefreshTime := 5, inProgress := false }).2.2.2.2
      rfl (by decide) (by decide)⟩

/-- The failed list built by the purge loop is exactly the names whose glob
call returned an error, in request order. -/
theorem purgeLoop_failed (env : PurgeEnv) (l : List String) :
    (purgeLoop env l).1 = l.filter (fun n => (env.glob n).isNone) := by
  induction l with
  | nil => rfl
  | cons a t ih =>
    cases hg : env.glob a <;>
      simp [purgeLoop, hg, ih, List.filter_cons]

/-- C10 (confirmed): for a POST purge whose body decodes to a non-empty
package list and whose database delete succeeds, the response reports
success=true and echoes the request's package list verbatim as deleted —
regardless of which glob patterns matched files and which removals
succeeded — while the failed list holds exactly the names whose glob
call itself errored. -/
theorem purge_deleted_verbatim (method : String) (body : Option (List String))
    (env : PurgeEnv) (pkgs : List String) (hm : method = "POST")
    (hb : body = some pkgs) (hne : pkgs ≠ []) (hdb : env.dbDeleteOk = true) :
    (purgeHandler method body env).getResp.success = true ∧
      (purgeHandler method body env).getResp.deleted = pkgs ∧
      (purgeHandler method body env).getResp.failed
        = pkgs.filter (fun n => (env.glob n).isNone) := by
  subst hm hb
  simp [purgeHandler, hne, hdb, PurgeOutcome.getResp, purgeLoop_failed]

/-- C10 (witness): purging two names where the second's glob pattern errors
and no file removal succeeds still returns both names as deleted, with
only the bad pattern in failed. -/
theorem purge_deleted_verbatim_witness :
    (purgeHandler "POST" (some ["a-1.0.tgz", "bad["])
        { glob := fun n => if n = "bad[" then none else some [n],
          removeOk := fun _ => false, dbDeleteOk := true }).getResp.deleted
      = ["a-1.0.tgz", "bad["] ∧
    (purgeHandler "POST" (some ["a-1.0.tgz", "bad["])
        { glob := fun n => if n = "bad[" then none else some [n],
          removeOk := fun _ => false, dbDeleteOk := true }).getResp.failed
      = ["bad["] := by
  have h := purge_deleted_verbatim "POST" (some ["a-1.0.tgz", "bad["])
    { glob := fun n => if n = "bad[" then none else some [n],
      removeOk := fun _ => false, dbDeleteOk := true }
    ["a-1.0.tgz", "bad["] rfl rfl (by decide) rfl
  refine ⟨h.2.1, ?_⟩
  rw [h.2.2]
  rfl

/-- The mutex invariant holds initially. -/
theorem sf_inv_init (n : Nat) : SFInv (initState n) := by
  intro i h
  simp [initState, inCrit] at h

/-- The mutex invariant is preserved by every step of the single-flight
interleaving semantics. -/
theorem sf_inv_step {n : Nat} {s s' : SFState n} (hs : SFInv s)
    (h : SFStep s s') : SFInv s' := by
  cases h with
  | fastHit i s hpc hc =>
    intro j hj
    dsimp only at hj ⊢
    rw [Function.update_apply] at hj
    split_ifs at hj with hij
    · exact absurd hj (by decide)
    · exact hs j hj
  | fastMiss i s hpc hc =>
    intro j hj
    dsimp only at hj ⊢
    rw [Function.update_apply] at hj
    split_ifs at hj with hij
    · exact absurd hj (by decide)
    · exact hs j hj
  | acquire i s hpc hlock =>
    intro j hj
    dsimp only at hj ⊢
    rw [Function.update_apply] at hj
    split_ifs at hj with hij
    · subst hij
      rfl
    · have h2 := hs j hj
      rw [hlock] at h2
      exact absurd h2 (by simp)
  | recheckHit i s hpc hc =>
    intro j hj
    dsimp only at hj ⊢
    rw [Function.update_apply] at hj
    split_ifs at hj with hij
    · exact absurd hj (by decide)
    · have h1 := hs i (by rw [hpc]; rfl)
      have h2 := hs j hj
      rw [h1] at h2
      exact absurd (Option.some.inj h2).symm hij
  | recheckMiss i s hpc hc =>
    intro j hj
    dsimp only at hj ⊢
    rw [Function.update_apply] at hj
    split_ifs at hj with hij
    · subst hij
      exact hs j (by rw [hpc]; rfl)
    · exact hs j hj
  | fetchOk i s hpc =>
    intro j hj
    dsimp only at hj ⊢
    rw [Function.update_apply] at hj
    split_ifs at hj with hij
    · subst hij
      exact hs j (by rw [hpc]; rfl)
    · exact hs j hj
  | fetchFail i s hpc =>
    intro j hj
    dsimp only at hj ⊢
    rw [Function.update_apply] at hj
    split_ifs at hj with hij
    · exact absurd hj (by decide)
    · have h1 := hs i (by rw [hpc]; rfl)
      have h2 := hs j hj
      rw [h1] at h2
      exact absurd (Option.some.inj h2).symm hij
  | install i s hpc =>
    intro j hj
    dsimp only at hj ⊢
    rw [Function.update_apply] at hj
    split_ifs at hj with hij
    · exact absurd hj (by decide)
    · have h1 := hs i (by rw [hpc]; rfl)
      have h2 := hs j hj
      rw [h1] at h2
      exact absurd (Option.some.inj h2).symm hij

/-- C9 (confirmed): in every state reachable by concurrent requests for the
same cache key, any request inside the critical section of re-check,
fetch and install holds the per-key single-flight mutex, and therefore
no two distinct requests ever have an upstream GET in flight at the same
time. -/
theorem single_flight_exclusive (n : Nat) (s : SFState n)
    (h : SFReachable n s) :
    (∀ i, inCrit (s.pc i) = true → s.lock = some i) ∧
      ∀ i j : Fin n, i ≠ j →
        ¬(s.pc i = DPC.fetching ∧ s.pc j = DPC.fetching) := by
  have hinv : SFInv s := by
    induction h with
    | refl => exact sf_inv_init n
    | tail _ hstep ih => exact sf_inv_step ih hstep
  refine ⟨hinv, ?_⟩
  rintro i j hij ⟨hi, hj⟩
  have h1 := hinv i (by rw [hi]; rfl)
  have h2 := hinv j (by rw [hj]; rfl)
  rw [h1] at h2
  exact hij (Option.some.inj h2)

/-- C9 (witness): the initial state of two concurrent requests is reachable
and has no two upstream fetches in flight. -/
theorem single_flight_exclusive_witness :
    ¬((initState 2).pc 0 = DPC.fetching ∧ (initState 2).pc 1 = DPC.fetching) :=
  (single_flight_exclusive 2 (initState 2) Relation.ReflTransGen.refl).2 0 1
    (by decide)

/-! ### Lemmas about the string helpers -/

/-- Destructuring a successful prefix test. -/
theorem listIsPrefixOf_cons {a : Char} {as l : List Char}
    (h : listIsPrefixOf (a :: as) l = true) :
    ∃ t, l = a :: t ∧ listIsPrefixOf as t = true := by
  cases l with
  | nil => simp [listIsPrefixOf] at h
  | cons b bs =>
    simp only [listIsPrefixOf, Bool.and_eq_true, beq_iff_eq] at h
    exact ⟨bs, by rw [h.1], h.2⟩

/-- A four-character prefix of a list followed by a slash-headed tail, none
of whose characters is a slash, lies entirely inside the front list. -/
theorem prefix4_append_slash {a b c d : Char} (ha : a ≠ '/') (hb : b ≠ '/')
    (hc : c ≠ '/') (hd : d ≠ '/') {xs ys : List Char}
    (h : listIsPrefixOf [a, b, c, d] (xs ++ '/' :: ys) = true) :
    listIsPrefixOf [a, b, c, d] xs = true := by
  rcases xs with _ | ⟨x1, _ | ⟨x2, _ | ⟨x3, _ | ⟨x4, rest⟩⟩⟩⟩ <;>
    simp only [List.cons_append, List.nil_append, listIsPrefixOf,
      Bool.and_eq_true, beq_iff_eq] at h ⊢ <;>
    tauto

/-- A list all of whose elements satisfy the predicate is untouched by
takeWhile. -/
theorem takeWhile_all {p : Char → Bool} {l : List Char}
    (h : ∀ x ∈ l, p x = true) : List.takeWhile p l = l := by
  induction l with
  | nil => rfl
  | cons a t ih =>
    rw [List.takeWhile_cons, if_pos (h a (by simp)),
      ih fun x hx => h x (by simp [hx])]

/-- goBase of a list whose final character is not a slash contains no
slash. -/
theorem goBase_no_slash {l : List Char} {c : Char} {t : List Char}
    (hrev : l.reverse = c :: t) (hc : c ≠ '/') : '/' ∉ goBase l := by
  have hne : l ≠ [] := by
    intro he
    rw [he] at hrev
    simp at hrev
  have hdrop : List.dropWhile (fun x => decide (x = '/')) (c :: t) = c :: t := by
    rw [List.dropWhile_cons, if_neg (by simp [hc])]
  simp only [goBase, hne, if_false, if_neg hne, hrev, hdrop,
    List.reverse_reverse]
  rw [if_neg (by simp)]
  intro hmem
  rw [List.mem_reverse] at hmem
  have := List.mem_takeWhile_imp hmem
  simp at this

/-- goBase is the identity on non-empty slash-free lists. -/
theorem goBase_id {l : List Char} (hne : l ≠ []) (hns : '/' ∉ l) :
    goBase l = l := by
  obtain ⟨c, t, hrev⟩ : ∃ c t, l.reverse = c :: t := by
    cases hr : l.reverse with
    | nil => exact absurd (List.reverse_eq_nil_iff.mp hr) hne
    | cons c t => exact ⟨c, t, rfl⟩
  have hc : c ≠ '/' := by
    intro he
    apply hns
    rw [← List.mem_reverse, hrev, he]
    simp
  have hdrop : List.dropWhile (fun x => decide (x = '/')) (c :: t) = c :: t := by
    rw [List.dropWhile_cons, if_neg (by simp [hc])]
  have htake : List.takeWhile (fun x => decide (x ≠ '/')) (c :: t) = c :: t := by
    apply takeWhile_all
    intro x hx
    have hxl : x ∈ l := by
      rw [← List.mem_reverse, hrev]
      exact hx
    simp
    intro he
    exact hns (he ▸ hxl)
  simp only [goBase, hne, if_neg hne, hrev, hdrop, List.reverse_reverse]
  rw [if_neg (by simp), htake, ← hrev, List.reverse_reverse]
  rw [if_neg hne]

/-- Replacing slashes by double underscores leaves no slash behind. -/
theorem replaceSlash_no_slash (l : List Char) : '/' ∉ replaceSlash l := by
  induction l with
  | nil => simp [replaceSlash]
  | cons c rest ih =>
    by_cases hc : c = '/'
    · simp [replaceSlash, hc, ih]
    · simp [replaceSlash, hc, ih]
      exact fun he => hc he.symm

/-- Replacing slashes is the identity on slash-free lists. -/
theorem replaceSlash_id {l : List Char} (h : '/' ∉ l) :
    replaceSlash l = l := by
  induction l with
  | nil => rfl
  | cons c rest ih =>
    have hc : c ≠ '/' := by
      intro he
      exact h (by simp [he])
    simp only [replaceSlash, if_neg hc, List.singleton_append,
      List.cons.injEq, true_and]
    exact ih fun hm => h (by simp [hm])

/-- Splitting on slashes never yields an empty list of parts. -/
theorem splitSlash_ne_nil (l : List Char) : splitSlash l ≠ [] := by
  cases l with
  | nil => simp [splitSlash]
  | cons c rest =>
    simp only [splitSlash]
    split_ifs
    · simp
    · cases splitSlash rest <;> simp

/-- Joining a part-cons with double underscores, when the tail is known to
be a non-empty parts list. -/
theorem joinUU_cons_cons (c : Char) (p : List Char) (ps : List (List Char)) :
    joinUU ((c :: p) :: ps) = c :: joinUU (p :: ps) := by
  cases ps <;> simp [joinUU]

/-- Unfolding the join of a part onto a non-empty parts list. -/
theorem joinUU_cons_ne (p : List Char) {l : List (List Char)} (h : l ≠ []) :
    joinUU (p :: l) = p ++ '_' :: '_' :: joinUU l := by
  cases l with
  | nil => exact absurd rfl h
  | cons q qs => rfl

/-- The split-on-slash then join-with-double-underscore construction equals
direct slash replacement. -/
theorem joinUU_splitSlash (l : List Char) :
    joinUU (splitSlash l) = replaceSlash l := by
  induction l with
  | nil => rfl
  | cons c rest ih =>
    by_cases hc : c = '/'
    · subst hc
      obtain ⟨p, ps, hps⟩ : ∃ p ps, splitSlash rest = p :: ps := by
        cases hr : splitSlash rest with
        | nil => exact absurd hr (splitSlash_ne_nil rest)
        | cons p ps => exact ⟨p, ps, rfl⟩
      simp only [splitSlash, if_pos rfl, hps, joinUU, replaceSlash, if_pos rfl]
      rw [← hps, ih]
      rfl
    · obtain ⟨p, ps, hps⟩ : ∃ p ps, splitSlash rest = p :: ps := by
        cases hr : splitSlash rest with
        | nil => exact absurd hr (splitSlash_ne_nil rest)
        | cons p ps => exact ⟨p, ps, rfl⟩
      simp only [splitSlash, if_neg hc, hps, joinUU_cons_cons, replaceSlash,
        if_neg hc, List.singleton_append]
      rw [← hps, ih]

/-- A singleton split means the list had no slash and the single part is the
list itself. -/
theorem splitSlash_singleton {l x : List Char} (h : splitSlash l = [x]) :
    x = l ∧ '/' ∉ l := by
  induction l generalizing x with
  | nil =>
    simp only [splitSlash, List.cons.injEq, and_true] at h
    simp [← h]
  | cons c rest ih =>
    by_cases hc : c = '/'
    · subst hc
      obtain ⟨p, ps, hps⟩ : ∃ p ps, splitSlash rest = p :: ps := by
        cases hr : splitSlash rest with
        | nil => exact absurd hr (splitSlash_ne_nil rest)
        | cons p ps => exact ⟨p, ps, rfl⟩
      rw [splitSlash, if_pos rfl, hps] at h
      simp at h
    · obtain ⟨p, ps, hps⟩ : ∃ p ps, splitSlash rest = p :: ps := by
        cases hr : splitSlash rest with
        | nil => exact absurd hr (splitSlash_ne_nil rest)
        | cons p ps => exact ⟨p, ps, rfl⟩
      rw [splitSlash, if_neg hc, hps] at h
      simp only [List.cons.injEq] at h
      obtain ⟨hx, hpsnil⟩ := h
      obtain ⟨hp, hn⟩ := ih (by rw [hps, hpsnil])
      subst hp
      constructor
      · rw [← hx]
      · intro hm
        rcases List.mem_cons.mp hm with h1 | h1
        · exact hc h1.symm
        · exact hn h1

/-- Joining all parts equals joining all but the last, a separator, and the
last part, whenever there are at least two parts. -/
theorem joinUU_dropLast_getLastD (parts : List (List Char))
    (h : parts.length > 1) :
    joinUU parts.dropLast ++ '_' :: '_' :: parts.getLastD []
      = joinUU parts := by
  induction parts with
  | nil => simp at h
  | cons p rest ih =>
    cases rest with
    | nil => simp at h
    | cons q qs =>
      cases qs with
      | nil => simp [joinUU]
      | cons r rs =>
        have h2 : (q :: r :: rs).length > 1 := by simp
        have hne : ((q :: r :: rs).dropLast : List (List Char)) ≠ [] := by
          rw [List.dropLast_cons₂]
          simp
        have hl : joinUU (p :: (q :: r :: rs).dropLast)
            = p ++ '_' :: '_' :: joinUU ((q :: r :: rs).dropLast) :=
          joinUU_cons_ne p hne
        have hg : (p :: q :: r :: rs).getLastD ([] : List Char)
            = (q :: r :: rs).getLastD [] := by
          simp [List.getLastD_cons]
        rw [List.dropLast_cons₂, hl, hg]
        simp only [List.append_assoc, List.cons_append]
        rw [ih h2]
        rfl

/-- A successful prefix test decomposes the list into the prefix and the
rest. -/
theorem listIsPrefixOf_append_drop {s l : List Char}
    (h : listIsPrefixOf s l = true) : l = s ++ l.drop s.length := by
  induction s generalizing l with
  | nil => simp
  | cons a as ih =>
    obtain ⟨t, rfl, ht⟩ := listIsPrefixOf_cons h
    simp only [List.cons_append, List.length_cons, List.drop_succ_cons,
      List.cons.injEq, true_and]
    exact ih ht

/-- The fuelled split never returns an empty parts list. -/
theorem splitAux_ne_nil (sep : List Char) (fuel : Nat) (l acc : List Char) :
    splitAux sep fuel l acc ≠ [] := by
  induction fuel generalizing l acc with
  | zero => simp [splitAux]
  | succ fuel ih =>
    cases l with
    | nil => simp [splitAux]
    | cons c rest =>
      simp only [splitAux]
      split_ifs
      · simp
      · exact ih rest (acc ++ [c])

/-- Joining the parts produced by the fuelled split reconstructs the input,
given enough fuel and a non-empty separator. -/
theorem joinSep_splitAux (sep : List Char) (hsep : sep ≠ [])
    (fuel : Nat) (l acc : List Char) (hfuel : l.length ≤ fuel) :
    joinSep sep (splitAux sep fuel l acc) = acc ++ l := by
  induction fuel generalizing l acc with
  | zero =>
    have hl : l = [] := List.length_eq_zero.mp (Nat.le_zero.mp hfuel)
    subst hl
    simp [splitAux, joinSep]
  | succ fuel ih =>
    cases l with
    | nil => simp [splitAux, joinSep]
    | cons c rest =>
      simp only [splitAux]
      split_ifs with hpre
      · obtain ⟨q, qs, hq⟩ : ∃ q qs,
            splitAux sep fuel (List.drop sep.length (c :: rest)) [] = q :: qs := by
          cases hr : splitAux sep fuel (List.drop sep.length (c :: rest)) [] with
          | nil =>
            exact absurd hr
              (splitAux_ne_nil sep fuel (List.drop sep.length (c :: rest)) [])
          | cons q qs => exact ⟨q, qs, rfl⟩
        rw [hq]
        show acc ++ sep ++ joinSep sep (q :: qs) = acc ++ c :: rest
        have hfuel2 : (List.drop sep.length (c :: rest)).length ≤ fuel := by
          rw [List.length_drop]
          have h1 : 1 ≤ sep.length := by
            cases sep with
            | nil => exact absurd rfl hsep
            | cons s ss => simp
          simp only [List.length_cons] at hfuel ⊢
          omega
        rw [← hq, ih (List.drop sep.length (c :: rest)) [] hfuel2]
        simp only [List.nil_append]
        rw [List.append_assoc]
        congr 1
        exact (listIsPrefixOf_append_drop hpre).symm
      · rw [ih rest (acc ++ [c]) (by simpa using Nat.le_of_succ_le_succ hfuel)]
        simp

/-- A two-part split exhibits the input as first part, separator, second
part. -/
theorem goSplit_two {sep l p0 p1 : List Char} (hsep : sep ≠ [])
    (h : goSplit sep l = [p0, p1]) : l = p0 ++ sep ++ p1 := by
  have hj := joinSep_splitAux sep hsep l.length l [] (le_refl _)
  rw [goSplit] at h
  rw [h] at hj
  simpa [joinSep] using hj.symm

/-- Underlying characters of a constructed string. -/
theorem mk_data (l : List Char) : (String.mk l).data = l := rfl

/-- Characters of the slash string literal. -/
theorem slash_data : ("/" : String).data = ['/'] := rfl

/-- A list of length two is a two-element literal. -/
theorem length_two_pair {α : Type} {l : List α} (h : l.length = 2) :
    ∃ a b, l = [a, b] := by
  rcases l with _ | ⟨a, _ | ⟨b, _ | ⟨c, t⟩⟩⟩ <;> simp at h
  exact ⟨a, b, rfl⟩

/-- The tgz suffix test in reversed-prefix form. -/
theorem tgz_suffix_reverse {p : String} (h : goHasSuffix p ".tgz" = true) :
    listIsPrefixOf ['z', 'g', 't', '.'] p.data.reverse = true := by
  have he : (".tgz" : String).data.reverse = ['z', 'g', 't', '.'] := rfl
  rw [goHasSuffix, he] at h
  exact h

/-- The gem suffix test in reversed-prefix form. -/
theorem gem_suffix_reverse {p : String} (h : goHasSuffix p ".gem" = true) :
    listIsPrefixOf ['m', 'e', 'g', '.'] p.data.reverse = true := by
  have he : (".gem" : String).data.reverse = ['m', 'e', 'g', '.'] := rfl
  rw [goHasSuffix, he] at h
  exact h

/-- A four-character slash-free reversed suffix survives trimming one
leading slash. -/
theorem prefix4_trim {a b c d : Char} (ha : a ≠ '/') (hb : b ≠ '/')
    (hc : c ≠ '/') (hd : d ≠ '/') {l : List Char}
    (h : listIsPrefixOf [a, b, c, d] l.reverse = true) :
    listIsPrefixOf [a, b, c, d] (goTrimPrefixL l ['/']).reverse = true := by
  rw [goTrimPrefixL]
  split_ifs with hp
  · obtain ⟨t, rfl, _⟩ := listIsPrefixOf_cons hp
    simp only [List.length_cons, List.length_nil, Nat.zero_add,
      List.drop_succ_cons, List.drop_zero]
    rw [List.reverse_cons] at h
    exact prefix4_append_slash ha hb hc hd h
  · exact h

/-- A suffix test on the lowered string reveals the final character of the
original. -/
theorem suffix_head_lower {p : String} {c0 : Char} {srest : List Char}
    (sfx : String) (hs : sfx.data.reverse = c0 :: srest)
    (h : goHasSuffix (String.mk (p.data.map Char.toLower)) sfx = true) :
    ∃ c t, p.data.reverse = c :: t ∧ Char.toLower c = c0 := by
  rw [goHasSuffix, hs, mk_data] at h
  obtain ⟨t, ht, _⟩ := listIsPrefixOf_cons h
  rw [← List.map_reverse] at ht
  cases hr : p.data.reverse with
  | nil =>
    rw [hr] at ht
    simp at ht
  | cons c cs =>
    rw [hr] at ht
    simp only [List.map_cons, List.cons.injEq] at ht
    exact ⟨c, cs, rfl, ht.1⟩

/-- A path accepted by the PyPI package-file predicate ends in a non-slash
character. -/
theorem pypi_last_char {p : String} (h : isPackageFile p = true) :
    ∃ c t, p.data.reverse = c :: t ∧ c ≠ '/' := by
  rw [isPackageFile] at h
  simp only [Bool.or_eq_true] at h
  rcases h with (((h | h) | h) | h) | h
  · obtain ⟨c, t, hct, hlow⟩ := suffix_head_lower ".whl" rfl h
    exact ⟨c, t, hct, fun he => by rw [he] at hlow; exact absurd hlow (by decide)⟩
  · obtain ⟨c, t, hct, hlow⟩ := suffix_head_lower ".tar.gz" rfl h
    exact ⟨c, t, hct, fun he => by rw [he] at hlow; exact absurd hlow (by decide)⟩
  · obtain ⟨c, t, hct, hlow⟩ := suffix_head_lower ".zip" rfl h
    exact ⟨c, t, hct, fun he => by rw [he] at hlow; exact absurd hlow (by decide)⟩
  · obtain ⟨c, t, hct, hlow⟩ := suffix_head_lower ".egg" rfl h
    exact ⟨c, t, hct, fun he => by rw [he] at hlow; exact absurd hlow (by decide)⟩
  · obtain ⟨c, t, hct, hlow⟩ := suffix_head_lower ".tar.bz2" rfl h
    exact ⟨c, t, hct, fun he => by rw [he] at hlow; exact absurd hlow (by decide)⟩

/-- The trimmed path of an accepted PyPI package file still ends in a
non-slash character (and in particular is non-empty). -/
theorem pypi_trim_head {p : String} (h : isPackageFile p = true) :
    ∃ c t, (goTrimPrefixL p.data ['/']).reverse = c :: t ∧ c ≠ '/' := by
  obtain ⟨c, t, hct, hc⟩ := pypi_last_char h
  rw [goTrimPrefixL]
  split_ifs with hp
  · obtain ⟨t2, hpd, _⟩ := listIsPrefixOf_cons hp
    rw [hpd]
    simp only [List.length_cons, List.length_nil, Nat.zero_add,
      List.drop_succ_cons, List.drop_zero]
    rw [hpd, List.reverse_cons] at hct
    cases ht2 : t2.reverse with
    | nil =>
      rw [ht2] at hct
      simp only [List.nil_append, List.cons.injEq] at hct
      exact absurd hct.1.symm hc
    | cons c2 cs2 =>
      rw [ht2] at hct
      simp only [List.cons_append, List.cons.injEq] at hct
      refine ⟨c2, cs2, rfl, ?_⟩
      rw [hct.1]
      exact hc
  · exact ⟨c, t, hct, hc⟩

/-- C7 (confirmed): for every path accepted by the PyPI package-file
classifier, the implementation's cache key — split the path on slashes
and join with double underscores, falling back to the basename for
slash-free paths — equals the specification's description: the path
without its leading slash with every remaining slash replaced by a
double underscore. -/
theorem pypi_key_refines_spec (p : String) (h : isPackageFile p = true) :
    generatePyPICacheFileName p = specPyPICacheKey p := by
  obtain ⟨c, t, hct, hc⟩ := pypi_trim_head h
  have hune : goTrimPrefixL p.data ['/'] ≠ [] := by
    intro he
    rw [he] at hct
    simp at hct
  simp only [generatePyPICacheFileName, specPyPICacheKey, goTrimPrefixS,
    mk_data, slash_data]
  split_ifs with hlen
  · congr 1
    rw [joinUU_dropLast_getLastD (splitSlash (goTrimPrefixL p.data ['/'])) hlen,
      joinUU_splitSlash]
  · congr 1
    obtain ⟨x, hx⟩ : ∃ x, splitSlash (goTrimPrefixL p.data ['/']) = [x] := by
      cases hs : splitSlash (goTrimPrefixL p.data ['/']) with
      | nil => exact absurd hs (splitSlash_ne_nil _)
      | cons x xs =>
        cases xs with
        | nil => exact ⟨x, rfl⟩
        | cons y ys =>
          rw [hs] at hlen
          simp at hlen
    obtain ⟨hxu, hnos⟩ := splitSlash_singleton hx
    rw [goBase_id hune hnos, replaceSlash_id hnos]

/-- C7 (witness): the wheel path from the spec's end-to-end scenario has the
same key under both descriptions. -/
theorem pypi_key_refines_spec_witness :
    generatePyPICacheFileName "/packages/py3/f/foo/foo-1.2-py3-none-any.whl"
      = specPyPICacheKey "/packages/py3/f/foo/foo-1.2-py3-none-any.whl" :=
  pypi_key_refines_spec "/packages/py3/f/foo/foo-1.2-py3-none-any.whl"
    (by decide)

/-- C1 (counterexample): the NPM key of the spec's scoped example path is
not the claimed at-types__node-20.10.0.tgz; the code joins the whole
segment before the slash-dash-slash separator (scope and package name)
and then appends the tarball name, yielding
at-types__node__node-20.10.0.tgz. -/
theorem npm_key_counterexample :
    generateCacheFileName "/@types/node/-/node-20.10.0.tgz"
        ≠ "@types__node-20.10.0.tgz" ∧
      generateCacheFileName "/@types/node/-/node-20.10.0.tgz"
        = "@types__node__node-20.10.0.tgz" := by
  constructor
  · decide
  · decide

/-- C1 (amended): for non-scoped paths (trimmed path not starting with "@")
the key is the basename of the trimmed path; for scoped paths splitting
into exactly two parts around the slash-dash-slash separator, the key is
"@" plus the entire first part (leading "@" removed, slashes becoming
double underscores) plus a double underscore plus the basename of the
second part — so the spec's example yields
at-types__node__node-20.10.0.tgz, not at-types__node-20.10.0.tgz. -/
theorem npm_key_spec :
    (∀ p : String, goStartsWith (goTrimPrefixS p "/") "@" = false →
      generateCacheFileName p
        = String.mk (goBase (goTrimPrefixS p "/").data)) ∧
    (∀ (p : String) (q0 q1 : List Char),
      goStartsWith (goTrimPrefixS p "/") "@" = true →
      goSplit npmScopeSep (goTrimPrefixS p "/").data = [q0, q1] →
      generateCacheFileName p
        = String.mk ('@' :: replaceSlash (goTrimPrefixL q0 ['@'])
            ++ '_' :: '_' :: goBase q1)) ∧
    generateCacheFileName "/@types/node/-/node-20.10.0.tgz"
      = "@types__node__node-20.10.0.tgz" := by
  refine ⟨?_, ?_, by decide⟩
  · intro p h
    simp [generateCacheFileName, h]
  · intro p q0 q1 h1 h2
    simp [generateCacheFileName, h1, h2]

/-- C1 (witness): the non-scoped rule applied to a lodash tarball path and
the scoped rule applied to the spec's example path. -/
theorem npm_key_spec_witness :
    generateCacheFileName "/lodash/-/lodash-4.17.21.tgz"
        = String.mk (goBase
            (goTrimPrefixS "/lodash/-/lodash-4.17.21.tgz" "/").data) ∧
      generateCacheFileName "/@types/node/-/node-20.10.0.tgz"
        = String.mk ('@' :: replaceSlash (goTrimPrefixL ("@types/node".data) ['@'])
            ++ '_' :: '_' :: goBase ("node-20.10.0.tgz".data)) :=
  ⟨npm_key_spec.1 "/lodash/-/lodash-4.17.21.tgz" (by decide),
   npm_key_spec.2.1 "/@types/node/-/node-20.10.0.tgz" ("@types/node".data)
     ("node-20.10.0.tgz".data) (by decide) (by decide)⟩

/-- C4 (counterexample): two distinct paths both accepted by the RubyGems
artifact predicate share one cache key, because the gem key is only the
basename of the path. -/
theorem key_unique_counterexample :
    rubyArtifactPred "/gems/sub/rails-7.1.0.gem" = true ∧
      rubyArtifactPred "/gems/rails-7.1.0.gem" = true ∧
      ("/gems/sub/rails-7.1.0.gem" : String) ≠ "/gems/rails-7.1.0.gem" ∧
      gemCacheFileName "/gems/sub/rails-7.1.0.gem"
        = gemCacheFileName "/gems/rails-7.1.0.gem" := by
  refine ⟨by decide, by decide, by decide, by decide⟩

/-- C4 (amended): for every path accepted by an ecosystem's classifier the
derived cache key contains no path separator (and key derivation is a
pure function of the path); uniqueness across distinct accepted paths
does not hold, as the counterexample shows. -/
theorem key_no_separator :
    (∀ p : String, npmDispatch "GET" p = Route.artifact →
      '/' ∉ (generateCacheFileName p).data) ∧
    (∀ p : String, pypiDispatch "GET" p = Route.artifact →
      '/' ∉ (generatePyPICacheFileName p).data) ∧
    (∀ p : String, rubyDispatch "GET" p = Route.artifact →
      '/' ∉ (gemCacheFileName p).data) := by
  refine ⟨?_, ?_, ?_⟩
  · intro p hd
    have hsuf : goHasSuffix p ".tgz" = true := by
      by_contra hns
      rw [npmDispatch, if_neg fun hh => hns hh.2] at hd
      exact absurd hd (by decide)
    have htrim := prefix4_trim (by decide) (by decide) (by decide) (by decide)
      (tgz_suffix_reverse hsuf)
    simp only [generateCacheFileName, goTrimPrefixS, mk_data, slash_data]
    split_ifs with h1 h2
    · obtain ⟨q0, q1, hq⟩ := length_two_pair h2
      rw [hq]
      simp only [List.getD_cons_zero, List.getD_cons_succ]
      have hu2 : goTrimPrefixL p.data ['/'] = q0 ++ npmScopeSep ++ q1 :=
        goSplit_two (by decide) hq
      rw [hu2] at htrim
      have hrev : (q0 ++ npmScopeSep ++ q1).reverse
          = q1.reverse ++ '/' :: '-' :: '/' :: q0.reverse := by
        rw [List.reverse_append, List.reverse_append]
        rw [show npmScopeSep.reverse = ['/', '-', '/'] from rfl]
        simp
      rw [hrev] at htrim
      have hq1 := prefix4_append_slash (by decide) (by decide) (by decide)
        (by decide) htrim
      obtain ⟨t1, ht1, _⟩ := listIsPrefixOf_cons hq1
      intro hmem
      simp only [mk_data, List.mem_cons, List.mem_append] at hmem
      rcases hmem with (h | h) | h | h | h
      · exact absurd h (by decide)
      · exact replaceSlash_no_slash _ h
      · exact absurd h (by decide)
      · exact absurd h (by decide)
      · exact goBase_no_slash ht1 (by decide) h
    · obtain ⟨t1, ht1, _⟩ := listIsPrefixOf_cons htrim
      exact goBase_no_slash ht1 (by decide)
    · obtain ⟨t1, ht1, _⟩ := listIsPrefixOf_cons htrim
      exact goBase_no_slash ht1 (by decide)
  · intro p hd
    have hpf : isPackageFile p = true := by
      by_contra hns
      rw [pypiDispatch, if_neg fun hh => hns hh.2] at hd
      exact absurd hd (by decide)
    obtain ⟨c, t, hct, hc⟩ := pypi_trim_head hpf
    simp only [generatePyPICacheFileName, goTrimPrefixS, mk_data, slash_data]
    split_ifs with hlen
    · intro hmem
      rw [joinUU_dropLast_getLastD _ hlen, joinUU_splitSlash] at hmem
      exact replaceSlash_no_slash _ hmem
    · exact goBase_no_slash hct hc
  · intro p hd
    have hpred : rubyArtifactPred p = true := by
      by_contra hns
      rw [rubyDispatch, if_neg hns] at hd
      exact absurd hd (by decide)
    have hsuf : goHasSuffix p ".gem" = true := by
      rw [rubyArtifactPred] at hpred
      simp only [Bool.and_eq_true] at hpred
      exact hpred.2
    obtain ⟨t1, ht1, _⟩ := listIsPrefixOf_cons (gem_suffix_reverse hsuf)
    simp only [gemCacheFileName, mk_data]
    exact goBase_no_slash ht1 (by decide)

/-- C4 (witness): the three slash-free keys of the spec's example artifact
paths. -/
theorem key_no_separator_witness :
    '/' ∉ (generateCacheFileName "/@types/node/-/node-20.10.0.tgz").data ∧
      '/' ∉ (generatePyPICacheFileName
        "/packages/py3/f/foo/foo-1.2-py3-none-any.whl").data ∧
      '/' ∉ (gemCacheFileName "/gems/rails-7.1.0.gem").data :=
  ⟨key_no_separator.1 "/@types/node/-/node-20.10.0.tgz" (by decide),
   key_no_separator.2.1 "/packages/py3/f/foo/foo-1.2-py3-none-any.whl"
     (by decide),
   key_no_separator.2.2 "/gems/rails-7.1.0.gem" (by decide)⟩
